import Mathlib

/-!
Shallow embedding of the pattern-verbalizer-pair encoding engine in
src/tasks/superglue/pvp.py, together with theorems settling the claims
about it.  External collaborators of the engine (the tokenizer adapter,
build_input_from_ids, num_special_tokens_to_add from tasks/data_utils)
are modelled as abstract parameters, following section 6 of the spec,
which treats them as opaque boundaries.
-/

namespace GLM

/-- A tokenized segment, an element of the lists `PVP.truncate` works on:
the token-id sequence paired with its shortenable flag. -/
abbrev Seg := List Nat × Bool

/-- Embedding of the static method `PVP._seq_length` (pvp.py lines 167-169):
the sum of the lengths of the token sequences of the segments, restricted to
the shortenable ones when `only` is true (the Python comprehension filter is
`not only_shortenable or shortenable`). -/
def seq_length : List Seg → Bool → Nat
  | [], _ => 0
  | p :: ps, only => (if !only || p.2 then p.1.length else 0) + seq_length ps only

/-- The index computed on pvp.py line 173:
the greatest index of a shortenable, non-empty segment.  The value `none`
models the ValueError that Python raises for a max over an empty generator. -/
def lastShortIdx : List Seg → Option Nat
  | [] => none
  | p :: ps =>
    match lastShortIdx ps with
    | some i => some (i + 1)
    | none => if p.2 && !p.1.isEmpty then some 0 else none

/-- Embedding of `PVP._remove_last` (pvp.py lines 171-174): replace the last
shortenable, non-empty segment by the same segment without its final token
(Python slice [:-1] is dropLast).  The value `none` models the raised
ValueError when no such segment exists. -/
def remove_last (parts : List Seg) : Option (List Seg) :=
  match lastShortIdx parts with
  | none => none
  | some i =>
      some (parts.set i ((parts.getD i ([], false)).1.dropLast, (parts.getD i ([], false)).2))

/-- The removal loop of `PVP.truncate` (pvp.py lines 186-190), run for `n`
iterations: each step compares the shortenable-only token counts of the two
sides and removes one token from part A when its count is strictly greater,
otherwise from part B. -/
def truncate_loop : Nat → List Seg → List Seg → Option (List Seg × List Seg)
  | 0, a, b => some (a, b)
  | n + 1, a, b =>
    if seq_length a true > seq_length b true then
      match remove_last a with
      | none => none
      | some a2 => truncate_loop n a2 b
    else
      match remove_last b with
      | none => none
      | some b2 => truncate_loop n a b2

/-- Embedding of `PVP.truncate` (pvp.py lines 176-190).  The parameter
`reserved` stands for the value of
num_special_tokens_to_add(parts_a, parts_b, answer, add_cls=True,
add_sep=False, add_piece=True): that helper lives in tasks/data_utils, which
is not part of the source under verification, so it stays abstract; every
theorem below holds for an arbitrary value of it.  The Python test
`num_tokens_to_remove <= 0` is the total-length test written here, and the
loop runs total - max_length times otherwise. -/
def truncate (parts_a parts_b : List Seg) (reserved max_length : Nat) :
    Option (List Seg × List Seg) :=
  if seq_length parts_a false + seq_length parts_b false + reserved ≤ max_length then
    some (parts_a, parts_b)
  else
    truncate_loop (seq_length parts_a false + seq_length parts_b false + reserved - max_length)
      parts_a parts_b

/-- One step of the shortenable-length dynamics of the truncation loop:
the strictly longer side loses one token, and on a tie the second component
(part B) loses the token, because the Python comparison is strict. -/
def fair_step : Nat × Nat → Nat × Nat
  | (x, y) => if y < x then (x - 1, y) else (x, y - 1)

/-- Part A of the concrete alternation example: one shortenable segment of
ten tokens. -/
def cexA : List Seg := [([0, 1, 2, 3, 4, 5, 6, 7, 8, 9], true)]

/-- Part B of the concrete alternation example: one shortenable segment of
four tokens. -/
def cexB : List Seg := [([0, 1, 2, 3], true)]

/-- Python str.isdigit used on pvp.py line 231: the string is non-empty and
all its characters are digits. -/
def isDigitLine (s : String) : Bool := !s.data.isEmpty && s.data.all Char.isDigit

/-- Python int(line) on an all-digit line (pvp.py line 232). -/
def strToNat (s : String) : Nat := s.data.foldl (fun n c => n * 10 + (c.toNat - 48)) 0

/-- Helper for splitWs: accumulate the current word (reversed) while walking
the character list. -/
def splitWsAux : List Char → List Char → List String
  | [], acc => if acc.isEmpty then [] else [String.mk acc.reverse]
  | c :: cs, acc =>
    if c.isWhitespace then
      if acc.isEmpty then splitWsAux cs []
      else String.mk acc.reverse :: splitWsAux cs []
    else splitWsAux cs (c :: acc)

/-- Python str.split() with no argument (pvp.py line 234): split on runs of
whitespace, producing no empty fields. -/
def splitWs (s : String) : List String := splitWsAux s.data []

/-- The empty string, used only as the never-reached default of headD. -/
def emptyStr : String := ""

/-- Python dict assignment d[k] = v: insert the binding or overwrite an
existing one, keeping insertion order. -/
def dictSet {K V : Type} [DecidableEq K] (k : K) (v : V) : List (K × V) → List (K × V)
  | [] => [(k, v)]
  | (k2, v2) :: rest => if k2 = k then (k2, v) :: rest else (k2, v2) :: dictSet k v rest

/-- Python dict subscript d[k]; the value `none` models the raised KeyError. -/
def dictGet {K V : Type} [DecidableEq K] (k : K) : List (K × V) → Option V
  | [] => none
  | (k2, v2) :: rest => if k2 = k then some v2 else dictGet k rest

/-- The verbalizers table built by `PVP._load_verbalizer_from_file`: the outer
defaultdict(dict) keyed by the current pattern id (which is Python None until
the first digit line), mapping to the per-pattern label dictionary. -/
abbrev VTable := List (Option Nat × List (String × List String))

/-- The parse loop of `PVP._load_verbalizer_from_file` (pvp.py lines 229-235):
a digit line selects the current pattern id, a non-empty line binds its first
word as label to the remaining words inside the current section, and empty
lines are skipped.  The outer table is a defaultdict, so a content line reads
the current section with an empty-dict default before updating it.  The value
`none` models the ValueError Python raises when unpacking the split of a
whitespace-only line. -/
def load_lines : List String → Option Nat → VTable → Option VTable
  | [], _, t => some t
  | line :: rest, current, t =>
    if isDigitLine line then load_lines rest (some (strToNat line)) t
    else if line = "" then load_lines rest current t
    else if splitWs line = [] then none
    else
      load_lines rest current
        (dictSet current
          (dictSet ((splitWs line).headD emptyStr) ((splitWs line).drop 1)
            ((dictGet current t).getD []))
          t)

/-- The closure returned by `PVP._load_verbalizer_from_file` (pvp.py lines
239-242) applied to a label: verbalizers[pattern_id][label].  The outer
defaultdict lookup falls back to an empty dictionary, and the inner lookup on
a plain dict raises KeyError for an absent label, modelled by `none` (which
also covers a parse failure of the file itself). -/
def file_verbalize (lines : List String) (pattern_id : Nat) (label : String) :
    Option (List String) :=
  match load_lines lines none [] with
  | none => none
  | some t => dictGet label ((dictGet (some pattern_id) t).getD [])

/-- The labels a verbalizer file defines under a given pattern id: the first
words of the content lines of the sections opened by that digit line. -/
def defined_labels : List String → Option Nat → Nat → List String
  | [], _, _ => []
  | line :: rest, current, pid =>
    if isDigitLine line then defined_labels rest (some (strToNat line)) pid
    else if line = "" then defined_labels rest current pid
    else if splitWs line = [] then []
    else
      (if current = some pid then [(splitWs line).headD emptyStr] else []) ++
        defined_labels rest current pid

/-- First line of the concrete verbalizer file: a digit line opening the
section of pattern id 0. -/
def vline0 : String := "0"

/-- Second line of the concrete verbalizer file: defines the label yes with
the single realization Yes. -/
def vline1 : String := "yes Yes"

/-- A label that the concrete verbalizer file does not define. -/
def labelNo : String := "no"

/-- The fields of InputExample (tasks/data_utils, external) that the modelled
task templates read. -/
structure InputExample where
  text_a : String
  text_b : String

/-- An element of a raw filled pattern as returned by get_parts: either a
plain string or a pair of a string and its shortenable flag. -/
abbrev StrSeg := String ⊕ (String × Bool)

/-- A filled pattern: the part-A and part-B element lists. -/
abbrev FilledPattern := List StrSeg × List StrSeg

/-- Embedding of the static method `PVP.shortenable` (pvp.py lines 73-76). -/
def shortenable (s : String) : StrSeg := Sum.inr (s, true)

/-- Membership in Python string.punctuation: the ASCII ranges 33-47, 58-64,
91-96 and 123-126. -/
def isPunct (c : Char) : Bool :=
  (33 ≤ c.toNat && c.toNat ≤ 47) || (58 ≤ c.toNat && c.toNat ≤ 64) ||
    (91 ≤ c.toNat && c.toNat ≤ 96) || (123 ≤ c.toNat && c.toNat ≤ 126)

/-- Python str.rstrip(string.punctuation): drop trailing punctuation
characters. -/
def rstripPunct (s : String) : String :=
  String.mk ((s.data.reverse.dropWhile isPunct).reverse)

/-- Template literal: an opening double quote. -/
def sQuote : String := "\""

/-- Template literal: closing double quote, space, question mark. -/
def sQuoteSpaceQ : String := "\" ?"

/-- Template literal: comma, space, opening double quote. -/
def sCommaQuote : String := ", \""

/-- Template literal: a question mark. -/
def sQmark : String := "?"

/-- Template literal: a comma. -/
def sComma : String := ","

/-- Template literal: period, space, opening double quote. -/
def sDotQuote : String := ". \""

/-- Template literal: a period. -/
def sDot : String := "."

/-- Template literal of the RTE pattern 4 question marker. -/
def sQuestionKw : String := " question: "

/-- Template literal of the RTE pattern 4 answer marker. -/
def sTrueFalse : String := " True or False? answer:"

/-- Template literal: a colon. -/
def sColon : String := ":"

/-- Template literal of the AG-News pattern 1 marker. -/
def sNews : String := "News:"

/-- Template literal: an opening parenthesis. -/
def sLPar : String := "("

/-- Template literal: a closing parenthesis. -/
def sRPar : String := ")"

/-- Template literal of the AG-News pattern 4 category marker. -/
def sCategory : String := "[ Category:"

/-- Template literal: a closing square bracket. -/
def sRBrack : String := "]"

/-- Template literal: a dash. -/
def sDash : String := "-"

/-- The text of the ValueError raised by AgnewsPVP.get_parts for an
unimplemented pattern id (pvp.py line 489), up to the formatted id. -/
def errNoPattern : String := "No pattern implemented for id "

/-- Embedding of `RtePVP.get_parts` (pvp.py lines 337-351), with the mask
token string passed in for self.mask.  The result Except.ok (some pattern)
is a returned filled pattern; Except.ok none is the implicit Python None
produced by falling off the end of the if/elif chain for any pattern id
outside 0-4 (no branch of this method raises). -/
def RtePVP.get_parts (mask : String) (pattern_id : Nat) (ex : InputExample) :
    Except String (Option FilledPattern) :=
  if pattern_id = 0 then
    Except.ok (some ([Sum.inl sQuote, shortenable (rstripPunct ex.text_b), Sum.inl sQuoteSpaceQ],
      [Sum.inl mask, Sum.inl sCommaQuote, shortenable ex.text_a, Sum.inl sQuote]))
  else if pattern_id = 1 then
    Except.ok (some ([shortenable (rstripPunct ex.text_b), Sum.inl sQmark],
      [Sum.inl mask, Sum.inl sComma, shortenable ex.text_a]))
  else if pattern_id = 2 then
    Except.ok (some ([Sum.inl sQuote, shortenable (rstripPunct ex.text_b), Sum.inl sQuoteSpaceQ],
      [Sum.inl mask, Sum.inl sDotQuote, shortenable ex.text_a, Sum.inl sQuote]))
  else if pattern_id = 3 then
    Except.ok (some ([shortenable (rstripPunct ex.text_b), Sum.inl sQmark],
      [Sum.inl mask, Sum.inl sDot, shortenable ex.text_a]))
  else if pattern_id = 4 then
    Except.ok (some ([shortenable ex.text_a, Sum.inl sQuestionKw, shortenable ex.text_b,
      Sum.inl sTrueFalse, Sum.inl mask], []))
  else Except.ok none

/-- Embedding of `AgnewsPVP.get_parts` (pvp.py lines 471-489): pattern ids
0-5 return a filled pattern and every other id raises ValueError through the
final else branch, modelled by Except.error. -/
def AgnewsPVP.get_parts (mask : String) (pattern_id : Nat) (ex : InputExample) :
    Except String (Option FilledPattern) :=
  if pattern_id = 0 then
    Except.ok (some ([Sum.inl mask, Sum.inl sColon, shortenable ex.text_a,
      shortenable ex.text_b], []))
  else if pattern_id = 1 then
    Except.ok (some ([Sum.inl mask, Sum.inl sNews, shortenable ex.text_a,
      shortenable ex.text_b], []))
  else if pattern_id = 2 then
    Except.ok (some ([shortenable ex.text_a, Sum.inl sLPar, Sum.inl mask, Sum.inl sRPar,
      shortenable ex.text_b], []))
  else if pattern_id = 3 then
    Except.ok (some ([shortenable ex.text_a, shortenable ex.text_b, Sum.inl sLPar,
      Sum.inl mask, Sum.inl sRPar], []))
  else if pattern_id = 4 then
    Except.ok (some ([Sum.inl sCategory, Sum.inl mask, Sum.inl sRBrack,
      shortenable ex.text_a, shortenable ex.text_b], []))
  else if pattern_id = 5 then
    Except.ok (some ([Sum.inl mask, Sum.inl sDash, shortenable ex.text_a,
      shortenable ex.text_b], []))
  else Except.error (errNoPattern ++ toString pattern_id)

/-- Premise text of the concrete example used for the pattern-id theorems. -/
def exA : String := "A sentence"

/-- Hypothesis text of the concrete example used for the pattern-id
theorems. -/
def exB : String := "Another one"

/-- The concrete example used for the pattern-id theorems. -/
def exRte : InputExample := ⟨exA, exB⟩

/-- A concrete mask token string. -/
def maskTok : String := "[MASK]"

/-- The tokenizer adapter (external collaborator, section 2 and section 6 of
the spec): EncodeAsIds, the mask token id, and the reserved special-id set
(tokenizer.all_special_ids). -/
structure Tok where
  encodeAsIds : String → List Nat
  maskId : Nat
  specialIds : List Nat

/-- Embedding of the module-level `get_verbalization_ids` (pvp.py lines
619-638).  Without force_single_token the full id sequence is returned
unmodified as Sum.inr; with it the two assertions (exactly one id, id not a
special token) are modelled by none, and the single id is returned as
Sum.inl. -/
def get_verbalization_ids (word : String) (tk : Tok) (force_single_token : Bool) :
    Option (Nat ⊕ List Nat) :=
  if force_single_token then
    match tk.encodeAsIds word with
    | [i] => if tk.specialIds.contains i then none else some (Sum.inl i)
    | _ => none
  else some (Sum.inr (tk.encodeAsIds word))

/-- The segment normalization and tokenization at the start of `PVP.encode`
(pvp.py lines 108-113): tag untagged elements as non-shortenable, keep the
elements with non-empty text, and tokenize each text. -/
def tokenizeParts (tk : Tok) (parts : List StrSeg) : List Seg :=
  ((parts.map (fun x => match x with | Sum.inl s => (s, false) | Sum.inr p => p)).filter
      (fun p => p.1 != "")).map (fun p => (tk.encodeAsIds p.1, p.2))

/-- Flattening of truncated segments into token ids (pvp.py lines 122-123
and 144-145). -/
def flat_tokens (parts : List Seg) : List Nat := (parts.map (fun p => p.1)).flatten

/-- Python list.index: the position of the first occurrence; none models the
raised ValueError when the element is absent. -/
def py_index {A : Type} [DecidableEq A] (x : A) : List A → Option Nat
  | [] => none
  | y :: ys => if y = x then some 0 else (py_index x ys).map (fun n => n + 1)

/-- The single-token branch of `PVP.encode` up to the flat concatenation
(pvp.py lines 108-113, 142-150): tokenize both parts (part B only when the
raw list is non-empty, mirroring the Python truthiness guard), truncate with
an empty answer, flatten, and concatenate part A before part B.  `reserved`
abstracts num_special_tokens_to_add (tasks/data_utils, not part of the
source under verification). -/
def flat_input_ids (tk : Tok) (reserved max_seq_length : Nat)
    (parts_a parts_b : List StrSeg) : Option (List Nat) :=
  match truncate (tokenizeParts tk parts_a)
      (if parts_b = ([] : List StrSeg) then [] else tokenizeParts tk parts_b)
      reserved max_seq_length with
  | none => none
  | some (a2, b2) => some (flat_tokens a2 ++ flat_tokens b2)

/-- The priming branch of the single-token path of `PVP.encode` (pvp.py
lines 147-158).  `vb` stands for self.verbalize.  When labeled, the code
locates the mask id with list.index, asserts the position is 1, asserts the
label has exactly one verbalization, resolves it in strict mode and
overwrites the mask slot; every assertion or lookup failure is modelled by
none. -/
def encode_priming (tk : Tok) (vb : String → List String)
    (reserved max_seq_length : Nat) (parts_a parts_b : List StrSeg)
    (label : String) (labeled : Bool) : Option (List Nat) :=
  match flat_input_ids tk reserved max_seq_length parts_a parts_b with
  | none => none
  | some input_ids =>
    if labeled then
      match py_index tk.maskId input_ids with
      | none => none
      | some mask_idx =>
        if mask_idx = 1 then
          match vb label with
          | [w] =>
            match get_verbalization_ids w tk true with
            | some (Sum.inl vid) => some (input_ids.set mask_idx vid)
            | _ => none
          | _ => none
        else none
    else some input_ids

/-- A word that the concrete strict-mode tokenizer maps to two ids. -/
def wordAB : String := "ab"

/-- A concrete tokenizer for the strict-resolution witness: wordAB maps to
two ids, everything else to one non-special id. -/
def tk1 : Tok := ⟨fun s => if s = wordAB then [1, 2] else [5], 9, [0]⟩

/-- Concrete template word mapped to token id 3 by tk2. -/
def strA : String := "a"

/-- Concrete mask word mapped to the mask id 9 by tk2. -/
def strM : String := "m"

/-- Concrete template word mapped to token id 3 by tk2. -/
def strX : String := "x"

/-- Concrete verbalization mapped to the single non-special id 5 by tk2. -/
def strYes : String := "Yes"

/-- Concrete label used in the priming witness. -/
def strLbl : String := "lbl"

/-- A concrete tokenizer for the priming witness: the mask word strM maps to
the mask id 9, strYes to the non-special id 5, everything else to id 3. -/
def tk2 : Tok :=
  ⟨fun s => if s = strM then [9] else if s = strYes then [5] else [3], 9, [0]⟩

/-- A concrete verbalizer assigning every label the single verbalization
strYes. -/
def vb2 : String → List String := fun _ => [strYes]

/-- Concrete part-A elements for the priming witness: a word, the mask word,
a word, so the mask lands at flat index 1. -/
def pa2 : List StrSeg := [Sum.inl strA, Sum.inl strM, Sum.inl strX]

/-- The seven fixed-width arrays returned by build_input_from_ids
(tasks/data_utils): an external collaborator that section 6 of the spec
treats as an opaque boundary, so only its arity is modelled here. -/
structure InputData where
  ids : List Nat
  types : List Nat
  paddings : List Nat
  position_ids : List Nat
  sep : List Nat
  target_ids : List Nat
  loss_masks : List Nat

/-- Run a fallible function over a list, collecting the results in order and
failing as soon as one application fails (the Python for-loop over answers
propagates the first raised exception). -/
def traverseOpt {A B : Type} (f : A → Option B) : List A → Option (List B)
  | [] => some []
  | a :: as =>
    match f a, traverseOpt f as with
    | some b, some bs => some (b :: bs)
    | _, _ => none

/-- One iteration of the multi-token loop of `PVP.encode` (pvp.py lines
118-131).  The Python deep copies of the tokenized parts mean each candidate
truncates the pristine tokenized lists, which is what passing the immutable
`pa` and `pb` expresses.  The candidate answer is resolved in non-strict
mode; `build` abstracts build_input_from_ids and `reservedOf answer_ids`
abstracts num_special_tokens_to_add for this candidate (both live in
tasks/data_utils, outside the source under verification).  Part-B tokens are
passed to build only when the tokenized part-B list is non-empty, mirroring
the Python truthiness guard on line 123. -/
def encode_candidate (build : List Nat → Option (List Nat) → List Nat → InputData)
    (tk : Tok) (reservedOf : List Nat → Nat) (max_seq_length : Nat)
    (pa pb : List Seg) (answer : String) : Option InputData :=
  match get_verbalization_ids answer tk false with
  | some (Sum.inr answer_ids) =>
    match truncate pa pb (reservedOf answer_ids) max_seq_length with
    | none => none
    | some (a2, b2) =>
        some (build (flat_tokens a2)
          (if pb = ([] : List Seg) then none else some (flat_tokens b2)) answer_ids)
  | _ => none

/-- The multi-token branch of `PVP.encode` (pvp.py lines 115-131) up to the
per-candidate parallel arrays: tokenize the parts once, run one candidate
encoding per answer, and collect ids_list, positions_list, sep_list,
target_list and mask_list in candidate order. -/
def encode_multi (build : List Nat → Option (List Nat) → List Nat → InputData)
    (tk : Tok) (reservedOf : List Nat → Nat) (max_seq_length : Nat)
    (parts_a parts_b : List StrSeg) (answers : List String) :
    Option (List (List Nat) × List (List Nat) × List (List Nat) ×
      List (List Nat) × List (List Nat)) :=
  match traverseOpt
      (encode_candidate build tk reservedOf max_seq_length (tokenizeParts tk parts_a)
        (if parts_b = ([] : List StrSeg) then [] else tokenizeParts tk parts_b))
      answers with
  | none => none
  | some datas =>
      some (datas.map (fun d => d.ids), datas.map (fun d => d.position_ids),
        datas.map (fun d => d.sep), datas.map (fun d => d.target_ids),
        datas.map (fun d => d.loss_masks))

/-- A concrete opaque sample builder for the fan-out witness. -/
def build0 : List Nat → Option (List Nat) → List Nat → InputData :=
  fun ta tb ans => ⟨ta, [], [], tb.getD [], [0], ans, []⟩

/-- Concrete part-A elements for the fan-out witness. -/
def pa3 : List StrSeg := [Sum.inl strA]

/-- The concrete output of the fan-out witness run: two candidates, so two
entries in each parallel field. -/
def out0 : List (List Nat) × List (List Nat) × List (List Nat) ×
    List (List Nat) × List (List Nat) :=
  ([[3], [3]], [[], []], [[0], [0]], [[3], [3]], [[], []])

/-- A Python label value as the multi-token path of encode sees it: either a
scalar string or a list of strings. -/
inductive PyLabel where
  | str : String → PyLabel
  | list : List String → PyLabel

/-- Python len() applied to a label: the character count of a string, the
element count of a list. -/
def PyLabel.len : PyLabel → Nat
  | .str s => s.data.length
  | .list ls => ls.length

/-- Python iteration and indexing over a label: a string yields its
characters as one-character strings, a list yields its elements. -/
def PyLabel.elems : PyLabel → List String
  | .str s => s.data.map String.singleton
  | .list ls => ls

/-- Embedding of the label resolution of the multi-token branch of
`PVP.encode` (pvp.py lines 132-136), written exactly as the source: when
len(label) == 0 it reads label[0] (which then always raises IndexError,
since the label has no element 0) and would look that element up in
label_list; otherwise it maps list.index over the elements of the label.
The value none models a raised IndexError or ValueError. -/
def resolve_label (label_list : List String) (label : PyLabel) :
    Option (Nat ⊕ List Nat) :=
  if label.len = 0 then
    match label.elems[0]? with
    | none => none
    | some l0 => (py_index l0 label_list).map Sum.inl
  else
    (traverseOpt (fun l => py_index l label_list) label.elems).map Sum.inr

/-- The label string of the first label of the concrete two-label
vocabulary. -/
def str0 : String := "0"

/-- The label string of the second label of the concrete two-label
vocabulary. -/
def str1 : String := "1"

end GLM

namespace GLM

theorem remove_last_cons (p : Seg) (ps : List Seg) :
    remove_last (p :: ps) =
      (match remove_last ps with
      | some ps2 => some (p :: ps2)
      | none =>
          if p.2 && !p.1.isEmpty then some ((p.1.dropLast, p.2) :: ps) else none) := by
  unfold remove_last
  cases h : lastShortIdx ps with
  | none =>
    simp only [lastShortIdx, h]
    by_cases hc : p.2 && !p.1.isEmpty
    · rw [if_pos hc, if_pos hc]
      rfl
    · rw [if_neg hc, if_neg hc]
  | some i =>
    simp only [lastShortIdx, h]
    rfl

theorem remove_last_length (parts parts2 : List Seg)
    (h : remove_last parts = some parts2) (only : Bool) :
    seq_length parts2 only + 1 = seq_length parts only := by
  induction parts generalizing parts2 with
  | nil => simp [remove_last, lastShortIdx] at h
  | cons p ps ih =>
    rw [remove_last_cons] at h
    cases hr : remove_last ps with
    | some ps2 =>
      rw [hr] at h
      injection h with h2
      subst h2
      have hih := ih ps2 hr
      simp only [seq_length]
      omega
    | none =>
      rw [hr] at h
      by_cases hc : p.2 && !p.1.isEmpty
      · rw [if_pos hc] at h
        injection h with h2
        subst h2
        have hp2 : p.2 = true := by
          cases hpp : p.2
          · rw [hpp] at hc; simp at hc
          · rfl
        have hne : p.1 ≠ [] := by
          intro hnil
          rw [hnil] at hc
          simp at hc
        have hpos : 0 < p.1.length := List.length_pos.mpr hne
        have hdrop : p.1.dropLast.length = p.1.length - 1 := List.length_dropLast p.1
        simp [seq_length, hp2]
        omega
      · rw [if_neg hc] at h
        exact absurd h (by simp)

theorem remove_last_preserve (parts parts2 : List Seg)
    (h : remove_last parts = some parts2) :
    parts2.length = parts.length ∧
      ∀ (i : Nat) (x : Seg), parts[i]? = some x → x.2 = false → parts2[i]? = some x := by
  induction parts generalizing parts2 with
  | nil => simp [remove_last, lastShortIdx] at h
  | cons p ps ih =>
    rw [remove_last_cons] at h
    cases hr : remove_last ps with
    | some ps2 =>
      rw [hr] at h
      injection h with h2
      subst h2
      obtain ⟨hlen, hpres⟩ := ih ps2 hr
      refine ⟨by simp [hlen], ?_⟩
      intro i x hx hflag
      cases i with
      | zero =>
        simp only [List.getElem?_cons_zero] at hx ⊢
        exact hx
      | succ j =>
        simp only [List.getElem?_cons_succ] at hx ⊢
        exact hpres j x hx hflag
    | none =>
      rw [hr] at h
      by_cases hc : p.2 && !p.1.isEmpty
      · rw [if_pos hc] at h
        injection h with h2
        subst h2
        have hp2 : p.2 = true := by
          cases hpp : p.2
          · rw [hpp] at hc; simp at hc
          · rfl
        refine ⟨by simp, ?_⟩
        intro i x hx hflag
        cases i with
        | zero =>
          simp only [List.getElem?_cons_zero] at hx
          injection hx with hx2
          subst hx2
          rw [hp2] at hflag
          exact absurd hflag (by simp)
        | succ j =>
          simp only [List.getElem?_cons_succ] at hx ⊢
          exact hx
      · rw [if_neg hc] at h
        exact absurd h (by simp)

theorem truncate_loop_length (n : Nat) :
    ∀ a b a2 b2 : List Seg, truncate_loop n a b = some (a2, b2) →
      seq_length a2 false + seq_length b2 false + n =
        seq_length a false + seq_length b false := by
  induction n with
  | zero =>
    intro a b a2 b2 h
    simp only [truncate_loop] at h
    injection h with h2
    injection h2 with ha hb
    subst ha
    subst hb
    omega
  | succ n ih =>
    intro a b a2 b2 h
    simp only [truncate_loop] at h
    by_cases hc : seq_length a true > seq_length b true
    · rw [if_pos hc] at h
      cases hr : remove_last a with
      | none => rw [hr] at h; exact absurd h (by simp)
      | some a1 =>
        rw [hr] at h
        have h1 := ih a1 b a2 b2 h
        have h2 := remove_last_length a a1 hr false
        omega
    · rw [if_neg hc] at h
      cases hr : remove_last b with
      | none => rw [hr] at h; exact absurd h (by simp)
      | some b1 =>
        rw [hr] at h
        have h1 := ih a b1 a2 b2 h
        have h2 := remove_last_length b b1 hr false
        omega

theorem truncate_loop_preserve (n : Nat) :
    ∀ a b a2 b2 : List Seg, truncate_loop n a b = some (a2, b2) →
      (a2.length = a.length ∧ b2.length = b.length) ∧
      (∀ (i : Nat) (x : Seg), a[i]? = some x → x.2 = false → a2[i]? = some x) ∧
      (∀ (i : Nat) (x : Seg), b[i]? = some x → x.2 = false → b2[i]? = some x) := by
  induction n with
  | zero =>
    intro a b a2 b2 h
    simp only [truncate_loop] at h
    injection h with h2
    injection h2 with ha hb
    subst ha
    subst hb
    exact ⟨⟨rfl, rfl⟩, fun i x hx _ => hx, fun i x hx _ => hx⟩
  | succ n ih =>
    intro a b a2 b2 h
    simp only [truncate_loop] at h
    by_cases hc : seq_length a true > seq_length b true
    · rw [if_pos hc] at h
      cases hr : remove_last a with
      | none => rw [hr] at h; exact absurd h (by simp)
      | some a1 =>
        rw [hr] at h
        obtain ⟨⟨hl1, hl2⟩, hpa, hpb⟩ := ih a1 b a2 b2 h
        obtain ⟨hl0, hp0⟩ := remove_last_preserve a a1 hr
        refine ⟨⟨hl1.trans hl0, hl2⟩, ?_, hpb⟩
        intro i x hx hflag
        exact hpa i x (hp0 i x hx hflag) hflag
    · rw [if_neg hc] at h
      cases hr : remove_last b with
      | none => rw [hr] at h; exact absurd h (by simp)
      | some b1 =>
        rw [hr] at h
        obtain ⟨⟨hl1, hl2⟩, hpa, hpb⟩ := ih a b1 a2 b2 h
        obtain ⟨hl0, hp0⟩ := remove_last_preserve b b1 hr
        refine ⟨⟨hl1, hl2.trans hl0⟩, hpa, ?_⟩
        intro i x hx hflag
        exact hpb i x (hp0 i x hx hflag) hflag

theorem truncate_loop_fair (n : Nat) :
    ∀ a b a2 b2 : List Seg, truncate_loop n a b = some (a2, b2) →
      (seq_length a2 true, seq_length b2 true) =
        fair_step^[n] (seq_length a true, seq_length b true) := by
  induction n with
  | zero =>
    intro a b a2 b2 h
    simp only [truncate_loop] at h
    injection h with h2
    injection h2 with ha hb
    subst ha
    subst hb
    rfl
  | succ n ih =>
    intro a b a2 b2 h
    simp only [truncate_loop] at h
    rw [Function.iterate_succ_apply]
    by_cases hc : seq_length a true > seq_length b true
    · rw [if_pos hc] at h
      cases hr : remove_last a with
      | none => rw [hr] at h; exact absurd h (by simp)
      | some a1 =>
        rw [hr] at h
        have h2 := remove_last_length a a1 hr true
        have hstep : fair_step (seq_length a true, seq_length b true) =
            (seq_length a1 true, seq_length b true) := by
          simp only [fair_step]
          rw [if_pos hc]
          rw [Prod.mk.injEq]
          exact ⟨by omega, rfl⟩
        rw [hstep]
        exact ih a1 b a2 b2 h
    · rw [if_neg hc] at h
      cases hr : remove_last b with
      | none => rw [hr] at h; exact absurd h (by simp)
      | some b1 =>
        rw [hr] at h
        have h2 := remove_last_length b b1 hr true
        have hstep : fair_step (seq_length a true, seq_length b true) =
            (seq_length a true, seq_length b1 true) := by
          simp only [fair_step]
          rw [if_neg hc]
          rw [Prod.mk.injEq]
          exact ⟨rfl, by omega⟩
        rw [hstep]
        exact ih a b1 a2 b2 h

/-- Claim C9: when the total length of part A plus part B plus the reserved
special-token count is at most max_length, truncate leaves both segment
lists unchanged. -/
theorem truncate_below_budget_noop (parts_a parts_b : List Seg)
    (reserved max_length : Nat)
    (h : seq_length parts_a false + seq_length parts_b false + reserved ≤ max_length) :
    truncate parts_a parts_b reserved max_length = some (parts_a, parts_b) := by
  unfold truncate
  rw [if_pos h]

theorem truncate_below_budget_noop_witness :
    seq_length [([1, 2], true)] false + seq_length [([3], false)] false + 1 ≤ 4 ∧
    truncate [([1, 2], true)] [([3], false)] 1 4 =
      some ([([1, 2], true)], [([3], false)]) :=
  ⟨by decide,
    truncate_below_budget_noop [([1, 2], true)] [([3], false)] 1 4 (by decide)⟩

/-- Claim C1: whenever the total length of part A plus part B plus the
reserved special-token count exceeds max_length, and every removal step of
the loop finds a shortenable non-empty segment on the selected side (which
is exactly when truncate returns a result instead of raising), the total
length of the truncated parts plus the reserved count equals max_length
exactly. -/
theorem truncate_budget_exact (parts_a parts_b a2 b2 : List Seg)
    (reserved max_length : Nat)
    (hover : max_length < seq_length parts_a false + seq_length parts_b false + reserved)
    (h : truncate parts_a parts_b reserved max_length = some (a2, b2)) :
    seq_length a2 false + seq_length b2 false + reserved = max_length := by
  unfold truncate at h
  rw [if_neg (by omega)] at h
  have h2 := truncate_loop_length
    (seq_length parts_a false + seq_length parts_b false + reserved - max_length)
    parts_a parts_b a2 b2 h
  omega

theorem truncate_budget_exact_witness :
    2 < seq_length [([1, 2, 3], true)] false + seq_length ([] : List Seg) false + 1 ∧
    truncate [([1, 2, 3], true)] [] 1 2 = some ([([1], true)], []) ∧
    seq_length [([1], true)] false + seq_length ([] : List Seg) false + 1 = 2 :=
  ⟨by decide, by decide,
    truncate_budget_exact [([1, 2, 3], true)] [] [([1], true)] [] 1 2
      (by decide) (by decide)⟩

/-- Claim C2: truncation never touches a segment whose shortenable flag is
false: every such segment of part A and of part B is still present,
unchanged and at the same position, in the output of truncate. -/
theorem truncate_preserves_nonshortenable (parts_a parts_b a2 b2 : List Seg)
    (reserved max_length : Nat)
    (h : truncate parts_a parts_b reserved max_length = some (a2, b2)) :
    a2.length = parts_a.length ∧ b2.length = parts_b.length ∧
    (∀ (i : Nat) (x : Seg), parts_a[i]? = some x → x.2 = false → a2[i]? = some x) ∧
    (∀ (i : Nat) (x : Seg), parts_b[i]? = some x → x.2 = false → b2[i]? = some x) := by
  unfold truncate at h
  by_cases hc : seq_length parts_a false + seq_length parts_b false + reserved ≤ max_length
  · rw [if_pos hc] at h
    injection h with h2
    injection h2 with ha hb
    subst ha
    subst hb
    exact ⟨rfl, rfl, fun i x hx _ => hx, fun i x hx _ => hx⟩
  · rw [if_neg hc] at h
    obtain ⟨⟨hl1, hl2⟩, hpa, hpb⟩ := truncate_loop_preserve
      (seq_length parts_a false + seq_length parts_b false + reserved - max_length)
      parts_a parts_b a2 b2 h
    exact ⟨hl1, hl2, hpa, hpb⟩

theorem truncate_preserves_nonshortenable_witness :
    truncate [([1, 2, 3], true), ([9], false)] [] 0 2 =
      some ([([1], true), ([9], false)], []) ∧
    ([([1], true), ([9], false)] : List Seg)[1]? = some ([9], false) :=
  ⟨by decide,
    (truncate_preserves_nonshortenable [([1, 2, 3], true), ([9], false)] []
        [([1], true), ([9], false)] [] 0 2 (by decide)).2.2.1 1 ([9], false)
      (by decide) (by decide)⟩

/-- Claim C3, counterexample: with part A of shortenable length 10, part B of
shortenable length 4 and an excess of 8 (reserved 0, max_length 6), the code
leaves shortenable lengths A = 3 and B = 3, not A = 4 and B = 2 as the claim
states: the tie at (4, 4) is broken by removing from part B, because the
strict comparison sends ties to the else branch. -/
theorem truncate_tiebreak_cex :
    Option.map (fun r => (seq_length r.1 true, seq_length r.2 true))
        (truncate cexA cexB 0 6) = some (3, 3) ∧
    ((3, 3) : Nat × Nat) ≠ (4, 2) := by
  constructor
  · decide
  · decide

/-- Claim C3 as amended: at each removal step the side whose shortenable-only
token count is strictly greater loses one token, with ties broken in favor of
shortening part B (the Python comparison is strict, so a tie falls to the
else branch); the resulting shortenable lengths are the iterate of this step
function, and on the concrete example A = 10, B = 4, excess 8 they are
A = 3 and B = 3. -/
theorem truncate_alternation (parts_a parts_b a2 b2 : List Seg)
    (reserved max_length : Nat)
    (hover : max_length < seq_length parts_a false + seq_length parts_b false + reserved)
    (h : truncate parts_a parts_b reserved max_length = some (a2, b2)) :
    (seq_length a2 true, seq_length b2 true) =
      fair_step^[seq_length parts_a false + seq_length parts_b false + reserved - max_length]
        (seq_length parts_a true, seq_length parts_b true) := by
  unfold truncate at h
  rw [if_neg (by omega)] at h
  exact truncate_loop_fair _ parts_a parts_b a2 b2 h

theorem truncate_alternation_witness :
    6 < seq_length cexA false + seq_length cexB false + 0 ∧
    truncate cexA cexB 0 6 = some ([([0, 1, 2], true)], [([0, 1, 2], true)]) ∧
    (seq_length [([0, 1, 2], true)] true, seq_length [([0, 1, 2], true)] true) =
      fair_step^[seq_length cexA false + seq_length cexB false + 0 - 6]
        (seq_length cexA true, seq_length cexB true) :=
  ⟨by decide, by decide,
    truncate_alternation cexA cexB [([0, 1, 2], true)] [([0, 1, 2], true)] 0 6
      (by decide) (by decide)⟩

theorem dictGet_dictSet_self {K V : Type} [DecidableEq K] (k : K) (v : V)
    (t : List (K × V)) : dictGet k (dictSet k v t) = some v := by
  induction t with
  | nil => simp [dictSet, dictGet]
  | cons p rest ih =>
    obtain ⟨k2, v2⟩ := p
    by_cases hk : k2 = k
    · simp [dictSet, dictGet, hk]
    · simp only [dictSet, dictGet, if_neg hk]
      exact ih

theorem dictGet_dictSet_ne {K V : Type} [DecidableEq K] (k k2 : K) (v : V)
    (t : List (K × V)) (h : k ≠ k2) : dictGet k (dictSet k2 v t) = dictGet k t := by
  induction t with
  | nil =>
    simp only [dictSet, dictGet]
    rw [if_neg (Ne.symm h)]
  | cons p rest ih =>
    obtain ⟨k3, v3⟩ := p
    by_cases hk : k3 = k2
    · subst hk
      simp only [dictSet, if_pos rfl, dictGet]
      rw [if_neg (Ne.symm h), if_neg (Ne.symm h)]
    · simp only [dictSet, if_neg hk]
      by_cases hk2 : k3 = k
      · simp [dictGet, hk2]
      · simp only [dictGet, if_neg hk2]
        exact ih

theorem load_lines_unknown (label : String) (pid : Nat) :
    ∀ (lines : List String) (current : Option Nat) (t t2 : VTable),
      label ∉ defined_labels lines current pid →
      dictGet label ((dictGet (some pid) t).getD []) = none →
      load_lines lines current t = some t2 →
      dictGet label ((dictGet (some pid) t2).getD []) = none := by
  intro lines
  induction lines with
  | nil =>
    intro current t t2 hnot hinv h
    simp only [load_lines] at h
    injection h with h2
    subst h2
    exact hinv
  | cons line rest ih =>
    intro current t t2 hnot hinv h
    simp only [load_lines] at h
    simp only [defined_labels] at hnot
    by_cases hd : isDigitLine line = true
    · rw [if_pos hd] at h hnot
      exact ih _ _ _ hnot hinv h
    · rw [if_neg hd] at h hnot
      by_cases he : line = ""
      · rw [if_pos he] at h hnot
        exact ih _ _ _ hnot hinv h
      · rw [if_neg he] at h hnot
        by_cases hsp : splitWs line = []
        · rw [if_pos hsp] at h
          exact absurd h (by simp)
        · rw [if_neg hsp] at h hnot
          by_cases hcur : current = some pid
          · subst hcur
            rw [if_pos rfl] at hnot
            rw [List.mem_append] at hnot
            push_neg at hnot
            obtain ⟨hne0, hrest⟩ := hnot
            have hne : label ≠ (splitWs line).headD emptyStr := by
              intro hh
              exact hne0 (List.mem_singleton.mpr hh)
            refine ih _ _ _ hrest ?_ h
            rw [dictGet_dictSet_self]
            simp only [Option.getD_some]
            rw [dictGet_dictSet_ne label ((splitWs line).headD emptyStr) _ _ hne]
            exact hinv
          · rw [if_neg hcur] at hnot
            simp only [List.nil_append] at hnot
            refine ih _ _ _ hnot ?_ h
            rw [dictGet_dictSet_ne (some pid) current _ t (Ne.symm hcur)]
            exact hinv

/-- Claim C4, counterexample: for the two-line verbalizer file with section 0
defining only the label yes, asking the produced closure for the absent label
results in a KeyError (modelled none), not in the empty list the claim
states: the inner per-pattern dictionary is a plain dict, so only the outer
defaultdict level has default semantics. -/
theorem file_verbalize_cex :
    file_verbalize [vline0, vline1] 0 labelNo = none ∧
    (none : Option (List String)) ≠ some [] := by
  constructor
  · decide
  · decide

/-- Claim C4 as amended: for every verbalizer file and every label that does
not appear in the file under the selected pattern id, the produced verbalize
closure fails with a key-lookup error (modelled as none) rather than
returning an empty list. -/
theorem file_verbalize_unknown_label (lines : List String) (pattern_id : Nat)
    (label : String) (h : label ∉ defined_labels lines none pattern_id) :
    file_verbalize lines pattern_id label = none := by
  unfold file_verbalize
  cases hl : load_lines lines none [] with
  | none => rfl
  | some t2 =>
    exact load_lines_unknown label pattern_id lines none [] t2 h rfl hl

theorem file_verbalize_unknown_label_witness :
    labelNo ∉ defined_labels [vline0, vline1] none 0 ∧
    file_verbalize [vline0, vline1] 0 labelNo = none :=
  ⟨by decide, file_verbalize_unknown_label [vline0, vline1] 0 labelNo (by decide)⟩

/-- Claim C5, counterexample: RtePVP.get_parts called with the undefined
pattern id 5 does not fail with a configuration error; it silently returns
the Python None (the undefined result of falling off the if/elif chain). -/
theorem rte_get_parts_silent_cex :
    RtePVP.get_parts maskTok 5 exRte = Except.ok none ∧
    (RtePVP.get_parts maskTok 5 exRte).isOk = true := by
  constructor
  · rfl
  · rfl

/-- Claim C5 as amended: AgnewsPVP.get_parts fails fast with a configuration
error (ValueError) for every pattern id outside its defined range, but
RtePVP.get_parts silently returns None for every pattern id outside its
defined range instead of raising. -/
theorem get_parts_undefined_pattern (mask : String) (ex : InputExample)
    (pid : Nat) (h : 5 < pid) :
    AgnewsPVP.get_parts mask pid ex = Except.error (errNoPattern ++ toString pid) ∧
    RtePVP.get_parts mask pid ex = Except.ok none := by
  have h0 : ¬pid = 0 := by omega
  have h1 : ¬pid = 1 := by omega
  have h2 : ¬pid = 2 := by omega
  have h3 : ¬pid = 3 := by omega
  have h4 : ¬pid = 4 := by omega
  have h5 : ¬pid = 5 := by omega
  constructor
  · unfold AgnewsPVP.get_parts
    rw [if_neg h0, if_neg h1, if_neg h2, if_neg h3, if_neg h4, if_neg h5]
  · unfold RtePVP.get_parts
    rw [if_neg h0, if_neg h1, if_neg h2, if_neg h3, if_neg h4]

theorem get_parts_undefined_pattern_witness :
    5 < 6 ∧
    AgnewsPVP.get_parts maskTok 6 exRte = Except.error (errNoPattern ++ toString 6) ∧
    RtePVP.get_parts maskTok 6 exRte = Except.ok none :=
  ⟨by decide, get_parts_undefined_pattern maskTok exRte 6 (by decide)⟩

/-- Claim C7: in strict mode, resolution fails when the word tokenizes to
more than one id or when its single id is a reserved special id, and
succeeds with exactly that id when the word tokenizes to one non-special id;
in non-strict mode the full id sequence is returned unmodified. -/
theorem get_verbalization_ids_strict (tk : Tok) (word : String) :
    (1 < (tk.encodeAsIds word).length → get_verbalization_ids word tk true = none) ∧
    (∀ i : Nat, tk.encodeAsIds word = [i] → tk.specialIds.contains i = true →
      get_verbalization_ids word tk true = none) ∧
    (∀ i : Nat, tk.encodeAsIds word = [i] → tk.specialIds.contains i = false →
      get_verbalization_ids word tk true = some (Sum.inl i)) ∧
    get_verbalization_ids word tk false = some (Sum.inr (tk.encodeAsIds word)) := by
  refine ⟨?_, ?_, ?_, rfl⟩
  · intro hlen
    unfold get_verbalization_ids
    rw [if_pos rfl]
    cases hids : tk.encodeAsIds word with
    | nil => rfl
    | cons i rest =>
      cases rest with
      | nil => exact absurd hlen (by simp [hids])
      | cons j rest2 => rfl
  · intro i hids hsp
    unfold get_verbalization_ids
    rw [if_pos rfl]
    simp only [hids]
    rw [if_pos hsp]
  · intro i hids hsp
    unfold get_verbalization_ids
    rw [if_pos rfl]
    simp only [hids]
    rw [if_neg (by rw [hsp]; simp)]

theorem get_verbalization_ids_strict_witness :
    1 < (tk1.encodeAsIds wordAB).length ∧
    get_verbalization_ids wordAB tk1 true = none :=
  ⟨by decide, (get_verbalization_ids_strict tk1 wordAB).1 (by decide)⟩

theorem py_index_lt_length {A : Type} [DecidableEq A] (x : A) :
    ∀ (l : List A) (i : Nat), py_index x l = some i → i < l.length := by
  intro l
  induction l with
  | nil => intro i h; simp [py_index] at h
  | cons y ys ih =>
    intro i h
    simp only [py_index] at h
    by_cases hy : y = x
    · rw [if_pos hy] at h
      injection h with h2
      subst h2
      simp only [List.length_cons]
      omega
    · rw [if_neg hy] at h
      cases hp : py_index x ys with
      | none => rw [hp] at h; exact absurd h (by simp)
      | some j =>
        rw [hp] at h
        have h4 : (some (j + 1) : Option Nat) = some i := h
        injection h4 with h2
        subst h2
        have := ih j hp
        simp only [List.length_cons]
        omega

theorem set_getElem?_self {A : Type} :
    ∀ (l : List A) (i : Nat) (x : A), i < l.length → (l.set i x)[i]? = some x := by
  intro l
  induction l with
  | nil => intro i x h; simp at h
  | cons y ys ih =>
    intro i x h
    cases i with
    | zero => simp
    | succ j =>
      simp only [List.set, List.getElem?_cons_succ]
      exact ih j x (by simpa using h)

theorem set_getElem?_ne {A : Type} :
    ∀ (l : List A) (i j : Nat) (x : A), i ≠ j → (l.set i x)[j]? = l[j]? := by
  intro l
  induction l with
  | nil => intro i j x h; simp
  | cons y ys ih =>
    intro i j x h
    cases i with
    | zero =>
      cases j with
      | zero => exact absurd rfl h
      | succ k => simp
    | succ i2 =>
      cases j with
      | zero => simp
      | succ k =>
        simp only [List.set, List.getElem?_cons_succ]
        exact ih i2 k x (fun hh => h (by rw [hh]))

/-- Claim C6: for a priming call on the single-token path whose unlabeled
flat concatenation is some sequence flat, if the first occurrence of the
mask id in flat is at index 1 and the label has exactly one verbalization
that strictly resolves to a single id, then the labeled call returns flat
with that id written at index 1 and every other position unchanged; the
labeled call fails when the located mask position is not 1 or when the label
has more than one verbalization. -/
theorem encode_priming_label_injection (tk : Tok) (vb : String → List String)
    (reserved max_seq_length : Nat) (parts_a parts_b : List StrSeg)
    (label : String) (flat : List Nat)
    (hflat : encode_priming tk vb reserved max_seq_length parts_a parts_b label false =
      some flat) :
    (∀ (w : String) (vid : Nat), py_index tk.maskId flat = some 1 → vb label = [w] →
      get_verbalization_ids w tk true = some (Sum.inl vid) →
      encode_priming tk vb reserved max_seq_length parts_a parts_b label true =
          some (flat.set 1 vid) ∧
        (flat.set 1 vid)[1]? = some vid ∧
        ∀ i : Nat, i ≠ 1 → (flat.set 1 vid)[i]? = flat[i]?) ∧
    (py_index tk.maskId flat ≠ some 1 →
      encode_priming tk vb reserved max_seq_length parts_a parts_b label true = none) ∧
    (1 < (vb label).length →
      encode_priming tk vb reserved max_seq_length parts_a parts_b label true = none) := by
  unfold encode_priming at hflat
  cases hfi : flat_input_ids tk reserved max_seq_length parts_a parts_b with
  | none => rw [hfi] at hflat; exact absurd hflat (by simp)
  | some input_ids =>
    rw [hfi] at hflat
    simp only [Bool.false_eq_true, if_false] at hflat
    injection hflat with h2
    subst h2
    refine ⟨?_, ?_, ?_⟩
    · intro w vid hidx hvb hres
      have hlt : 1 < input_ids.length := py_index_lt_length tk.maskId input_ids 1 hidx
      refine ⟨?_, set_getElem?_self input_ids 1 vid hlt, ?_⟩
      · unfold encode_priming
        rw [hfi]
        simp only [if_true]
        simp only [hidx, if_true]
        simp only [hvb, hres]
      · intro i hi
        exact set_getElem?_ne input_ids 1 i vid (fun hh => hi hh.symm)
    · intro hne
      unfold encode_priming
      rw [hfi]
      simp only [if_true]
      cases hpi : py_index tk.maskId input_ids with
      | none => simp only [hpi]
      | some k =>
        have hk : ¬k = 1 := by
          intro hh
          rw [hh] at hpi
          exact hne hpi
        simp only [hpi]
        rw [if_neg hk]
    · intro hlen
      unfold encode_priming
      rw [hfi]
      simp only [if_true]
      cases hpi : py_index tk.maskId input_ids with
      | none => simp only [hpi]
      | some k =>
        simp only [hpi]
        by_cases hk : k = 1
        · rw [if_pos hk]
          cases hvb : vb label with
          | nil => rfl
          | cons w rest =>
            cases rest with
            | nil => exact absurd hlen (by simp [hvb])
            | cons w2 rest2 => rfl
        · rw [if_neg hk]

theorem encode_priming_label_injection_witness :
    encode_priming tk2 vb2 0 10 pa2 [] strLbl false = some [3, 9, 3] ∧
    encode_priming tk2 vb2 0 10 pa2 [] strLbl true = some ([3, 9, 3].set 1 5) :=
  ⟨by decide,
    ((encode_priming_label_injection tk2 vb2 0 10 pa2 [] strLbl [3, 9, 3]
        (by decide)).1 strYes 5 (by decide) (by decide) (by decide)).1⟩

theorem traverseOpt_length {A B : Type} (f : A → Option B) :
    ∀ (l : List A) (res : List B), traverseOpt f l = some res →
      res.length = l.length := by
  intro l
  induction l with
  | nil =>
    intro res h
    simp only [traverseOpt] at h
    injection h with h2
    subst h2
    rfl
  | cons a as ih =>
    intro res h
    simp only [traverseOpt] at h
    cases hf : f a with
    | none => rw [hf] at h; exact absurd h (by simp)
    | some b =>
      rw [hf] at h
      cases ht : traverseOpt f as with
      | none => rw [ht] at h; exact absurd h (by simp)
      | some bs =>
        rw [ht] at h
        injection h with h2
        subst h2
        simp only [List.length_cons]
        rw [ih bs ht]

theorem traverseOpt_get {A B : Type} (f : A → Option B) :
    ∀ (l : List A) (res : List B), traverseOpt f l = some res →
      ∀ (i : Nat) (a : A), l[i]? = some a →
        ∃ b : B, f a = some b ∧ res[i]? = some b := by
  intro l
  induction l with
  | nil =>
    intro res h i a ha
    simp at ha
  | cons x as ih =>
    intro res h i a ha
    simp only [traverseOpt] at h
    cases hf : f x with
    | none => rw [hf] at h; exact absurd h (by simp)
    | some b =>
      rw [hf] at h
      cases ht : traverseOpt f as with
      | none => rw [ht] at h; exact absurd h (by simp)
      | some bs =>
        rw [ht] at h
        injection h with h2
        subst h2
        cases i with
        | zero =>
          simp only [List.getElem?_cons_zero] at ha
          injection ha with ha2
          subst ha2
          exact ⟨b, hf, by simp⟩
        | succ j =>
          simp only [List.getElem?_cons_succ] at ha
          simp only [List.getElem?_cons_succ]
          exact ih bs ht j a ha

theorem map_getElem? {A B : Type} (f : A → B) :
    ∀ (l : List A) (i : Nat), (l.map f)[i]? = (l[i]?).map f := by
  intro l
  induction l with
  | nil => intro i; simp
  | cons x xs ih =>
    intro i
    cases i with
    | zero => simp
    | succ j =>
      simp only [List.map_cons, List.getElem?_cons_succ]
      exact ih j

/-- Claim C8: a successful multi-token encode returns exactly one entry per
answer candidate in each of its five parallel fields, and the entry at each
index is the candidate encoding of that answer alone against the pristine
tokenized template parts, so no candidate run can alter another candidate
(this is what the Python deep copies guarantee and the pure embedding makes
structural). -/
theorem encode_multi_fanout (build : List Nat → Option (List Nat) → List Nat → InputData)
    (tk : Tok) (reservedOf : List Nat → Nat) (max_seq_length : Nat)
    (parts_a parts_b : List StrSeg) (answers : List String)
    (out : List (List Nat) × List (List Nat) × List (List Nat) ×
      List (List Nat) × List (List Nat))
    (h : encode_multi build tk reservedOf max_seq_length parts_a parts_b answers =
      some out) :
    out.1.length = answers.length ∧ out.2.1.length = answers.length ∧
    out.2.2.1.length = answers.length ∧ out.2.2.2.1.length = answers.length ∧
    out.2.2.2.2.length = answers.length ∧
    ∀ (i : Nat) (a : String), answers[i]? = some a →
      ∃ d : InputData,
        encode_candidate build tk reservedOf max_seq_length (tokenizeParts tk parts_a)
            (if parts_b = ([] : List StrSeg) then [] else tokenizeParts tk parts_b) a =
          some d ∧
        out.1[i]? = some d.ids ∧ out.2.1[i]? = some d.position_ids ∧
        out.2.2.1[i]? = some d.sep ∧ out.2.2.2.1[i]? = some d.target_ids ∧
        out.2.2.2.2[i]? = some d.loss_masks := by
  unfold encode_multi at h
  cases ht : traverseOpt
      (encode_candidate build tk reservedOf max_seq_length (tokenizeParts tk parts_a)
        (if parts_b = ([] : List StrSeg) then [] else tokenizeParts tk parts_b))
      answers with
  | none => rw [ht] at h; exact absurd h (by simp)
  | some datas =>
    rw [ht] at h
    injection h with h2
    subst h2
    have hlen := traverseOpt_length _ answers datas ht
    refine ⟨by simp [hlen], by simp [hlen], by simp [hlen], by simp [hlen],
      by simp [hlen], ?_⟩
    intro i a ha
    obtain ⟨d, hfd, hd⟩ := traverseOpt_get _ answers datas ht i a ha
    refine ⟨d, hfd, ?_, ?_, ?_, ?_, ?_⟩ <;>
      simp only [map_getElem?, hd, Option.map_some']

theorem encode_multi_fanout_witness :
    encode_multi build0 tk2 (fun _ => 0) 5 pa3 [] [strA, strX] = some out0 ∧
    out0.1.length = [strA, strX].length :=
  ⟨by rfl,
    (encode_multi_fanout build0 tk2 (fun _ => 0) 5 pa3 [] [strA, strX] out0
        (by rfl)).1⟩

/-- Claim C10: evaluating the label-resolution code of the multi-token path
on its failure modes: the scalar label 0 over the vocabulary [0, 1] is
iterated character-wise by the else branch, producing the list [0] rather
than the scalar index 0 the claim describes, and the empty-list label takes
the len(label) == 0 branch, whose immediate label[0] access always raises
IndexError. -/
theorem resolve_label_eval :
    resolve_label [str0, str1] (PyLabel.str str0) = some (Sum.inr [0]) ∧
    resolve_label [str0, str1] (PyLabel.list []) = none := by
  constructor
  · decide
  · decide

end GLM
